import Mathlib

/-!
Shallow embedding of the executable content of the notebook
`How-To-Embed-in-TensorFlow`:

* the tokenizer `re.sub('[,?.]','', text).lower().split(' ')`,
* the vocabulary `{k:v for v,k in enumerate(np.unique(tokenized))}`,
* the embedding table `tf.Variable(tf.random_uniform([VOCAB_LEN, EMBED_SIZE]))`
  and the lookup `tf.nn.embedding_lookup(embeddings, words_ids)`,
* the hand-written `Embedding` class (`__init__` + `__call__`) and the demo
  cell that drives it.
-/

namespace HowToEmbed

/-- The character class `[,?.]` of the tokenizer's `re.sub('[,?.]','', text)`. -/
def isPunct (c : Char) : Bool :=
  c == ',' || c == '?' || c == '.'

/-- Python's `str.split(' ')` on a list of characters: split at every single
space character, keeping empty pieces (so `''.split(' ') == ['']` and two
adjacent spaces produce an empty piece between them). -/
def splitOnSpace : List Char → List (List Char)
  | [] => [[]]
  | c :: cs =>
    if c = ' ' then [] :: splitOnSpace cs
    else
      match splitOnSpace cs with
      | [] => [[c]]
      | t :: ts => (c :: t) :: ts

/-- The preprocessing part `re.sub('[,?.]','', text).lower()` of the tokenizer
cell: drop the characters `,`, `?`, `.`, then lowercase, as a character list. -/
def preprocess (text : String) : List Char :=
  (text.toList.filter (fun c => !isPunct c)).map Char.toLower

/-- The tokenizer cell: `re.sub('[,?.]','', text).lower().split(' ')` — drop
the characters `,`, `?`, `.`, lowercase, then split on single spaces. -/
def tokenize (text : String) : List String :=
  (splitOnSpace (preprocess text)).map List.asString

/-- Lexicographic strict comparison of two character lists, by code point —
the order `np.unique` sorts numpy string arrays by. Written as an executable
Bool-valued function so concrete vocabularies evaluate inside proofs. -/
def lexLt : List Char → List Char → Bool
  | [], [] => false
  | [], _ :: _ => true
  | _ :: _, [] => false
  | a :: as, b :: bs => if a < b then true else if b < a then false else lexLt as bs

/-- Lexicographic strict order on strings. -/
def strLt (a b : String) : Bool := lexLt a.toList b.toList

/-- Lexicographic (non-strict) order on strings. -/
def strLe (a b : String) : Bool := !strLt b a

/-- `np.unique` on a list of strings: the distinct elements in lexicographic
sorted order. -/
def npUnique (l : List String) : List String :=
  List.insertionSort (fun a b => strLe a b = true) l.dedup

/-- The vocabulary cell `vocab = {k:v for v,k in enumerate(np.unique(tokenized))}`:
the association list pairing each distinct token with its enumeration index. -/
def vocab (tokens : List String) : List (String × Nat) :=
  (npUnique tokens).enum.map (fun p => (p.2, p.1))

/-- Reading one row of an embedding table, as `tf.nn.embedding_lookup` /
`tf.gather` treats a single index on CPU: an id below `0` or at or above the
row count raises `InvalidArgumentError` (modelled as `none`); a valid id
returns the row. Ids are integers, so negative inputs are representable. -/
def row (params : List (List ℚ)) (id : Int) : Option (List ℚ) :=
  if id < 0 then none else params[id.toNat]?

/-- `tf.nn.embedding_lookup(params, ids)` on a vector of ids: retrieve the row
of `params` at each id, in order, failing when any id is out of range. -/
def embedding_lookup (params : List (List ℚ)) (ids : List Int) : Option (List (List ℚ)) :=
  ids.mapM (row params)

/-- `tf.random_uniform([V, D])` with the default `minval=0, maxval=1`: a V×D
matrix whose entries are uniform draws in `[0, 1)`. Modelled over an abstract
stream `sample` of raw random 32-bit draws: entry `(i, j)` is the `(i*D+j)`-th
draw reduced to 32 bits and scaled into `[0, 1)`, the way TF converts random
bits into a float in the half-open unit interval. -/
def random_uniform (V D : Nat) (sample : Nat → Nat) : List (List ℚ) :=
  (List.range V).map (fun i =>
    (List.range D).map (fun j => ((sample (i * D + j) % 2 ^ 32 : Nat) : ℚ) / 2 ^ 32))

/-- The state built by the notebook's `Embedding.__init__`: the two stored
sizes and the `tf.Variable(tf.random_uniform([vocab_size, emd_dim]))` matrix. -/
structure Embedding where
  vocab_size : Int
  emd_dim : Int
  embeddings : List (List ℚ)

/-- `Embedding(vocab_size, emd_dim)`, i.e. `__init__`: shape arguments are
integers; `tf.random_uniform` rejects a negative dimension (modelled as
`none`) and otherwise allocates the `vocab_size × emd_dim` matrix. The
notebook itself performs no dimension validation of its own. -/
def Embedding.init (vocab_size : Int) (emd_dim : Int) (sample : Nat → Nat) :
    Option Embedding :=
  if vocab_size < 0 ∨ emd_dim < 0 then none
  else some ⟨vocab_size, emd_dim, random_uniform vocab_size.toNat emd_dim.toNat sample⟩

set_option linter.unusedVariables false in
/-- The notebook's `Embedding.__call__(self, words_id)`: its body is
`tf.nn.embedding_lookup(self.embeddings, words_ids)` — it reads the
module-level `words_ids` (here an explicit argument `module_words_ids`) and
never uses its `words_id` parameter. -/
def Embedding.call (self : Embedding) (words_id : List Int)
    (module_words_ids : List Int) : Option (List (List ℚ)) :=
  embedding_lookup self.embeddings module_words_ids

set_option linter.unusedVariables false in
/-- The demo cell `embedding = Embedding(VOCAB_LEN, EMBED_SIZE)` followed by
`embed = embeddings(words_ids)`: the construction runs first and its failure
(a negative size raising inside `tf.random_uniform`) aborts the cell, hence
the `bind`; when construction succeeds, the lookup is performed on the name
`embeddings`, which is still bound to the Keras layer object of the earlier
cell (whose weight matrix is `keras_weights`), so the freshly constructed
`embedding` instance itself is never read. -/
def demoEmbed (keras_weights : List (List ℚ)) (vocab_len emd_size : Int)
    (sample : Nat → Nat) (words_ids : List Int) : Option (List (List ℚ)) :=
  (Embedding.init vocab_len emd_size sample).bind (fun embedding =>
    embedding_lookup keras_weights words_ids)

theorem lexLt_irrefl (l : List Char) : lexLt l l = false := by
  induction l with
  | nil => rfl
  | cons a as ih => simp [lexLt, lt_irrefl, ih]

theorem lexLt_trans : ∀ {a b c : List Char},
    lexLt a b = true → lexLt b c = true → lexLt a c = true
  | [], _ :: _, _ :: _, _, _ => rfl
  | [], [], _, h, _ => by simp [lexLt] at h
  | _, _ :: _, [], _, h => by simp [lexLt] at h
  | _ :: _, [], _, h, _ => by simp [lexLt] at h
  | x :: as, y :: bs, z :: cs, h1, h2 => by
    simp only [lexLt] at h1 h2 ⊢
    by_cases hxy : x < y
    · by_cases hyz : y < z
      · simp [lt_trans hxy hyz]
      · by_cases hzy : z < y
        · simp [hyz, hzy] at h2
        · have hy : y = z := le_antisymm (le_of_not_lt hzy) (le_of_not_lt hyz)
          subst hy
          simp [hxy]
    · by_cases hyx : y < x
      · simp [hxy, hyx] at h1
      · have hx : x = y := le_antisymm (le_of_not_lt hyx) (le_of_not_lt hxy)
        subst hx
        rw [if_neg (lt_irrefl x), if_neg (lt_irrefl x)] at h1
        by_cases hyz : x < z
        · simp [hyz]
        · by_cases hzy : z < x
          · simp [hyz, hzy] at h2
          · rw [if_neg hyz, if_neg hzy] at h2 ⊢
            exact lexLt_trans h1 h2

theorem eq_of_lexLt_false : ∀ {a b : List Char},
    lexLt a b = false → lexLt b a = false → a = b
  | [], [], _, _ => rfl
  | [], _ :: _, h, _ => by simp [lexLt] at h
  | _ :: _, [], _, h => by simp [lexLt] at h
  | x :: as, y :: bs, h1, h2 => by
    simp only [lexLt] at h1 h2
    by_cases hxy : x < y
    · simp [hxy] at h1
    · by_cases hyx : y < x
      · simp [hyx] at h2
      · have hx : x = y := le_antisymm (le_of_not_lt hyx) (le_of_not_lt hxy)
        subst hx
        rw [if_neg (lt_irrefl x), if_neg (lt_irrefl x)] at h1
        rw [eq_of_lexLt_false h1 (by rwa [if_neg (lt_irrefl x), if_neg (lt_irrefl x)] at h2)]

theorem lexLt_iff_lt : ∀ {a b : List Char}, lexLt a b = true ↔ List.Lex (· < ·) a b
  | [], [] => Iff.intro (fun h => nomatch h) (fun h => nomatch h)
  | [], _ :: _ => Iff.intro (fun _ => List.Lex.nil) (fun _ => rfl)
  | _ :: _, [] => Iff.intro (fun h => nomatch h) (fun h => nomatch h)
  | x :: as, y :: bs => by
    simp only [lexLt]
    by_cases hxy : x < y
    · rw [if_pos hxy]
      exact ⟨fun _ => List.Lex.rel hxy, fun _ => rfl⟩
    · rw [if_neg hxy]
      by_cases hyx : y < x
      · rw [if_pos hyx]
        constructor
        · intro h
          nomatch h
        · intro h
          cases h with
          | cons h => exact absurd hyx (lt_irrefl x)
          | rel h => exact absurd h hxy
      · rw [if_neg hyx]
        have hx : x = y := le_antisymm (le_of_not_lt hyx) (le_of_not_lt hxy)
        subst hx
        rw [lexLt_iff_lt]
        constructor
        · exact List.Lex.cons
        · intro h
          cases h with
          | cons h => exact h
          | rel h => exact absurd h (lt_irrefl x)

theorem strLt_iff_lt {a b : String} : strLt a b = true ↔ a < b := by
  rw [strLt, lexLt_iff_lt, String.lt_iff_toList_lt]
  exact Iff.rfl

theorem strLe_iff_le {a b : String} : strLe a b = true ↔ a ≤ b := by
  rw [strLe, Bool.not_eq_true']
  constructor
  · intro h
    apply le_of_not_lt
    intro hba
    rw [← strLt_iff_lt] at hba
    rw [hba] at h
    nomatch h
  · intro h
    cases h2 : strLt b a with
    | false => rfl
    | true => exact absurd (strLt_iff_lt.mp h2) (not_lt_of_le h)

instance : IsTotal String (fun a b => strLe a b = true) where
  total a b := by
    simp only [strLe, strLt, Bool.not_eq_true']
    cases h : lexLt b.toList a.toList with
    | false => exact Or.inl rfl
    | true =>
      cases h2 : lexLt a.toList b.toList with
      | false => exact Or.inr rfl
      | true =>
        have h3 := lexLt_trans h2 h
        rw [lexLt_irrefl] at h3
        nomatch h3

instance : IsTrans String (fun a b => strLe a b = true) where
  trans a b c hab hbc := by
    simp only [strLe, strLt, Bool.not_eq_true'] at hab hbc ⊢
    cases h : lexLt c.toList a.toList with
    | false => rfl
    | true =>
      cases h2 : lexLt b.toList c.toList with
      | false =>
        have hbceq : b.toList = c.toList := eq_of_lexLt_false h2 hbc
        rw [← hbceq] at h
        rw [h] at hab
        nomatch hab
      | true =>
        have h3 := lexLt_trans h2 h
        rw [h3] at hab
        nomatch hab

instance : IsAntisymm String (fun a b => strLe a b = true) where
  antisymm a b hab hba := by
    simp only [strLe, strLt, Bool.not_eq_true'] at hab hba
    exact String.ext (eq_of_lexLt_false hba hab)

theorem npUnique_sorted (l : List String) :
    List.Sorted (fun a b => strLe a b = true) (npUnique l) :=
  List.sorted_insertionSort _ _

theorem npUnique_perm (l : List String) : (npUnique l).Perm l.dedup :=
  List.perm_insertionSort _ _

theorem npUnique_nodup (l : List String) : (npUnique l).Nodup :=
  (npUnique_perm l).symm.nodup (List.nodup_dedup l)

theorem npUnique_eq_of_perm {l₁ l₂ : List String} (h : l₁.Perm l₂) :
    npUnique l₁ = npUnique l₂ :=
  List.eq_of_perm_of_sorted
    ((npUnique_perm l₁).trans ((h.dedup).trans (npUnique_perm l₂).symm))
    (npUnique_sorted l₁) (npUnique_sorted l₂)

theorem npUnique_sorted_le (l : List String) : List.Sorted (· ≤ ·) (npUnique l) :=
  (npUnique_sorted l).imp (fun h => strLe_iff_le.mp h)

theorem npUnique_sorted_lt (l : List String) : List.Sorted (· < ·) (npUnique l) :=
  (npUnique_sorted_le l).lt_of_le (npUnique_nodup l)

theorem npUnique_mem {l : List String} {s : String} : s ∈ npUnique l ↔ s ∈ l :=
  ((npUnique_perm l).mem_iff).trans (List.mem_dedup)

theorem splitOnSpace_ne_nil (l : List Char) : splitOnSpace l ≠ [] := by
  cases l with
  | nil => simp [splitOnSpace]
  | cons c cs =>
    rw [splitOnSpace]
    by_cases h : c = ' '
    · simp [h]
    · rw [if_neg h]
      cases splitOnSpace cs <;> simp

theorem flatten_splitOnSpace (l : List Char) :
    (splitOnSpace l).flatten = l.filter (fun c => c != ' ') := by
  induction l with
  | nil => simp [splitOnSpace]
  | cons c cs ih =>
    rw [splitOnSpace]
    by_cases h : c = ' '
    · subst h
      simp [List.filter_cons, ih]
    · rw [if_neg h]
      cases hs : splitOnSpace cs with
      | nil => exact absurd hs (splitOnSpace_ne_nil cs)
      | cons t ts =>
        rw [hs] at ih
        simp only [List.flatten_cons] at ih ⊢
        simp [List.filter_cons, h, ← ih]

theorem length_splitOnSpace (l : List Char) :
    (splitOnSpace l).length = l.count ' ' + 1 := by
  induction l with
  | nil => simp [splitOnSpace]
  | cons c cs ih =>
    rw [splitOnSpace]
    by_cases h : c = ' '
    · subst h
      simp [List.count_cons, ih]
    · rw [if_neg h]
      cases hs : splitOnSpace cs with
      | nil => exact absurd hs (splitOnSpace_ne_nil cs)
      | cons t ts =>
        rw [hs] at ih
        simp only [List.length_cons] at ih ⊢
        simp [List.count_cons, h, ih]

theorem splitOnSpace_spaces_append (k : Nat) (b : List Char) :
    splitOnSpace (List.replicate k ' ' ++ b) =
      List.replicate k [] ++ splitOnSpace b := by
  induction k with
  | zero => simp
  | succ k ih => simp [List.replicate_succ, splitOnSpace, ih]

theorem splitOnSpace_nospace_append (a l : List Char) (ha : ∀ c ∈ a, c ≠ ' ') :
    splitOnSpace (a ++ l) =
      (a ++ (splitOnSpace l).headI) :: (splitOnSpace l).tail := by
  induction a with
  | nil =>
    simp only [List.nil_append]
    cases hs : splitOnSpace l with
    | nil => exact absurd hs (splitOnSpace_ne_nil l)
    | cons t ts => simp
  | cons c a' ih =>
    have hc : c ≠ ' ' := ha c (List.mem_cons_self c a')
    rw [List.cons_append, splitOnSpace, if_neg hc,
      ih (fun x hx => ha x (List.mem_cons_of_mem c hx))]
    simp

theorem splitOnSpace_run (a b : List Char) (k : Nat)
    (ha : ∀ c ∈ a, c ≠ ' ') (hk : 1 ≤ k) :
    splitOnSpace (a ++ List.replicate k ' ' ++ b) =
      a :: (List.replicate (k - 1) [] ++ splitOnSpace b) := by
  obtain ⟨k', rfl⟩ : ∃ k', k = k' + 1 := ⟨k - 1, by omega⟩
  rw [List.append_assoc, splitOnSpace_nospace_append a _ ha,
    splitOnSpace_spaces_append]
  simp [List.replicate_succ]

theorem row_valid (params : List (List ℚ)) (i : Int)
    (h0 : 0 ≤ i) (hlt : i < (params.length : Int)) :
    row params i = some (params.get ⟨i.toNat, by omega⟩) := by
  rw [row, if_neg (not_lt.mpr h0)]
  exact List.getElem?_eq_getElem (by omega)

theorem row_invalid (params : List (List ℚ)) (i : Int)
    (h : i < 0 ∨ (params.length : Int) ≤ i) : row params i = none := by
  rcases h with h | h
  · rw [row, if_pos h]
  · have h0 : ¬ i < 0 := by omega
    rw [row, if_neg h0]
    exact List.getElem?_eq_none (by omega)

/-- C1: vocabulary construction is order-independent — two token lists with
the same multiset of tokens yield the identical token-to-id association. -/
theorem vocab_multiset_invariant (t1 t2 : List String)
    (h : (t1 : Multiset String) = (t2 : Multiset String)) :
    vocab t1 = vocab t2 := by
  have hp : t1.Perm t2 := Multiset.coe_eq_coe.mp h
  rw [vocab, vocab, npUnique_eq_of_perm hp]

/-- Witness for C1 at the concrete pair of reorderings of one multiset. -/
theorem vocab_multiset_invariant_witness :
    (↑["b", "a", "b"] : Multiset String) = (↑["a", "b", "b"] : Multiset String) ∧
    vocab ["b", "a", "b"] = vocab ["a", "b", "b"] :=
  ⟨by decide, vocab_multiset_invariant _ _ (by decide)⟩

/-- C2: for every token list, the vocabulary assigns exactly the ids
0..N-1 in order (N the number of distinct tokens), its keys are in strictly
increasing lexicographic order, and the keys are exactly the distinct input
tokens. -/
theorem vocab_ids_unique_contiguous_sorted (tokens : List String) :
    (vocab tokens).map Prod.snd = List.range ((vocab tokens).length) ∧
    (vocab tokens).length = tokens.dedup.length ∧
    List.Sorted (· < ·) ((vocab tokens).map Prod.fst) ∧
    (∀ s : String, s ∈ (vocab tokens).map Prod.fst ↔ s ∈ tokens) := by
  have hfst : (vocab tokens).map Prod.fst = npUnique tokens := by
    rw [vocab, List.map_map]
    exact List.enum_map_snd (npUnique tokens)
  have hsnd : (vocab tokens).map Prod.snd = List.range ((npUnique tokens).length) := by
    rw [vocab, List.map_map]
    exact List.enum_map_fst (npUnique tokens)
  have hlen : (vocab tokens).length = (npUnique tokens).length := by
    rw [vocab, List.length_map, List.enum_length]
  refine ⟨by rw [hsnd, hlen], ?_, ?_, ?_⟩
  · rw [hlen, (npUnique_perm tokens).length_eq]
  · rw [hfst]
    exact npUnique_sorted_lt tokens
  · intro s
    rw [hfst]
    exact npUnique_mem

/-- C3: looking up a sequence of valid ids succeeds, the output has the
input's length, and the k-th output element is the row at the k-th input id —
order and duplicates preserved. -/
theorem lookup_valid_sequence (params : List (List ℚ)) (ids : List Int)
    (h : ∀ i ∈ ids, 0 ≤ i ∧ i < (params.length : Int)) :
    ∃ out, embedding_lookup params ids = some out ∧ out.length = ids.length ∧
      ∀ k : Nat, out[k]? = ids[k]?.bind (row params) := by
  induction ids with
  | nil =>
    exact ⟨[], rfl, rfl, fun k => by cases k <;> rfl⟩
  | cons i is ih =>
    obtain ⟨h0, hlt⟩ := h i (List.mem_cons_self i is)
    obtain ⟨out, hout, hlen, hget⟩ := ih (fun j hj => h j (List.mem_cons_of_mem i hj))
    have hr := row_valid params i h0 hlt
    refine ⟨params.get ⟨i.toNat, by omega⟩ :: out, ?_, by simp [hlen], ?_⟩
    · simp only [embedding_lookup, List.mapM_cons] at hout ⊢
      rw [hr, hout]
      rfl
    · intro k
      cases k with
      | zero => simp [hr]
      | succ k => simpa using hget k

/-- Witness for C3 on a concrete two-row table and the id sequence
[1, 0, 1] containing a duplicate. -/
theorem lookup_valid_sequence_witness :
    (∀ i ∈ [(1 : Int), 0, 1], 0 ≤ i ∧ i < (([[(1 : ℚ)], [2]] : List (List ℚ)).length : Int)) ∧
    (∃ out, embedding_lookup [[(1 : ℚ)], [2]] [1, 0, 1] = some out ∧
      out.length = [(1 : Int), 0, 1].length ∧
      ∀ k : Nat, out[k]? = [(1 : Int), 0, 1][k]?.bind (row [[(1 : ℚ)], [2]])) :=
  ⟨by decide, lookup_valid_sequence _ _ (by decide)⟩

/-- C4: the example sentence tokenizes to the five expected tokens and its
vocabulary is abutere:0, catilina:1, quo:2, tandem:3, usque:4. -/
theorem example_tokens_and_vocab :
    tokenize "Quo usque tandem abutere, Catilina?" =
      ["quo", "usque", "tandem", "abutere", "catilina"] ∧
    vocab (tokenize "Quo usque tandem abutere, Catilina?") =
      [("abutere", 0), ("catilina", 1), ("quo", 2), ("tandem", 3), ("usque", 4)] :=
  ⟨by decide, by decide⟩

/-- C5: an id below zero or at least the row count makes `row` fail, and makes
the lookup of any id sequence containing it fail, instead of returning rows. -/
theorem lookup_out_of_range_fails (params : List (List ℚ)) (i : Int) (ids : List Int)
    (h : i < 0 ∨ (params.length : Int) ≤ i) (hmem : i ∈ ids) :
    row params i = none ∧ embedding_lookup params ids = none := by
  have hrow := row_invalid params i h
  refine ⟨hrow, ?_⟩
  induction ids with
  | nil => cases hmem
  | cons j js ih =>
    simp only [embedding_lookup, List.mapM_cons]
    rcases List.mem_cons.mp hmem with rfl | hj
    · simp [hrow]
    · have htail := ih hj
      simp only [embedding_lookup] at htail
      rw [htail]
      cases row params j <;> rfl

/-- Witness for C5: id 5 on a one-row table, inside the sequence [0, 5]. -/
theorem lookup_out_of_range_fails_witness :
    ((5 : Int) < 0 ∨ (([[(1 : ℚ)]] : List (List ℚ)).length : Int) ≤ 5) ∧
    ((5 : Int) ∈ [(0 : Int), 5]) ∧
    (row [[(1 : ℚ)]] 5 = none ∧ embedding_lookup [[(1 : ℚ)]] [0, 5] = none) :=
  ⟨by decide, by decide, lookup_out_of_range_fails _ _ _ (by decide) (by decide)⟩

/-- C6 counterexample: tokenizing the empty string does NOT give an empty
token sequence (the claim as stated is false on the code). -/
theorem tokenize_empty_not_nil : ¬ (tokenize "" = []) := by decide

/-- C6 amended: tokenizing the empty string yields exactly one empty token,
matching CPython, where an explicit-separator split of "" gives [""]. -/
theorem tokenize_empty_single_empty_token : tokenize "" = [""] := by decide

/-- C7: on a freshly constructed V×D uniform table every valid id yields a
row of length D all of whose entries lie in the interval [0, 1). -/
theorem table_row_uniform (V D : Nat) (sample : Nat → Nat) (i : Int)
    (h0 : 0 ≤ i) (hV : i < (V : Int)) :
    ∃ v, row (random_uniform V D sample) i = some v ∧ v.length = D ∧
      ∀ q ∈ v, 0 ≤ q ∧ q < 1 := by
  have hi : i.toNat < V := by omega
  refine ⟨(List.range D).map
      (fun j => ((sample (i.toNat * D + j) % 2 ^ 32 : Nat) : ℚ) / 2 ^ 32), ?_, by simp, ?_⟩
  · rw [row, if_neg (not_lt.mpr h0), random_uniform, List.getElem?_map,
      List.getElem?_range hi]
    rfl
  · intro q hq
    simp only [List.mem_map, List.mem_range] at hq
    obtain ⟨j, _, rfl⟩ := hq
    constructor
    · positivity
    · rw [div_lt_one (by positivity)]
      exact_mod_cast Nat.mod_lt _ (by norm_num)

/-- Witness for C7 at V = 1, D = 2, a constant raw-bit stream and id 0. -/
theorem table_row_uniform_witness :
    ((0 : Int) ≤ 0) ∧ ((0 : Int) < ((1 : Nat) : Int)) ∧
    (∃ v, row (random_uniform 1 2 (fun _ => 0)) 0 = some v ∧ v.length = 2 ∧
      ∀ q ∈ v, 0 ≤ q ∧ q < 1) :=
  ⟨by decide, by decide, table_row_uniform 1 2 (fun _ => 0) 0 (by decide) (by decide)⟩

/-- C8 counterexample: constructing with vocabulary size 0 SUCCEEDS (an empty
0×50 table), so construction does not fail whenever V ≤ 0. -/
theorem init_zero_vocab_succeeds :
    (Embedding.init 0 50 (fun _ => 0)).isSome = true := rfl

/-- C8 amended: construction fails exactly for a negative vocabulary size or
a negative embedding dimension; for nonnegative sizes it succeeds and
allocates a vocab_size × emd_dim matrix (empty when a size is zero). -/
theorem init_fails_iff_negative_dim (vocab_size emd_dim : Int) (sample : Nat → Nat) :
    (Embedding.init vocab_size emd_dim sample = none ↔
      vocab_size < 0 ∨ emd_dim < 0) ∧
    (∀ e, Embedding.init vocab_size emd_dim sample = some e →
      e.embeddings.length = vocab_size.toNat ∧
      ∀ r ∈ e.embeddings, r.length = emd_dim.toNat) := by
  constructor
  · constructor
    · intro h
      by_contra hc
      rw [Embedding.init, if_neg hc] at h
      nomatch h
    · intro h
      rw [Embedding.init, if_pos h]
  · intro e he
    rw [Embedding.init] at he
    by_cases hc : vocab_size < 0 ∨ emd_dim < 0
    · rw [if_pos hc] at he
      nomatch he
    · rw [if_neg hc] at he
      obtain rfl := Option.some.inj he
      constructor
      · simp [random_uniform]
      · intro r hr
        simp only [random_uniform, List.mem_map, List.mem_range] at hr
        obtain ⟨j, _, rfl⟩ := hr
        simp

/-- C9 counterexample: the demo output is NOT independent of every choice of
the construction parameters — a negative vocabulary size makes the cell fail
during `Embedding(-1, 1)` before the lookup, while a valid size reaches the
Keras-layer lookup, so the two runs differ. -/
theorem demo_output_depends_on_negative_size :
    ¬ (demoEmbed [[(1 : ℚ)]] (-1) 1 (fun _ => 0) [0] =
        demoEmbed [[(1 : ℚ)]] 1 1 (fun _ => 0) [0]) := by decide

/-- C9 amended: `Embedding.__call__` ignores its `words_id` argument (the
body reads the module-level `words_ids`), and the demo cell applies the
earlier Keras layer object, so whenever construction succeeds — both sizes
nonnegative — its result does not depend on the constructed instance's
parameters; a negative size instead fails during construction. -/
theorem call_ignores_argument_demo_ignores_instance_when_built
    (self : Embedding) (a b g : List Int) (keras_weights : List (List ℚ))
    (v1 d1 v2 d2 : Int) (s1 s2 : Nat → Nat) (words_ids : List Int)
    (h1 : 0 ≤ v1) (h2 : 0 ≤ d1) (h3 : 0 ≤ v2) (h4 : 0 ≤ d2) :
    Embedding.call self a g = Embedding.call self b g ∧
    demoEmbed keras_weights v1 d1 s1 words_ids =
      demoEmbed keras_weights v2 d2 s2 words_ids := by
  refine ⟨rfl, ?_⟩
  rw [demoEmbed, demoEmbed, Embedding.init, Embedding.init,
    if_neg (by omega), if_neg (by omega)]
  rfl

/-- Witness for the amended C9 at two different concrete nonnegative
parameter choices and two different raw-bit streams. -/
theorem call_demo_when_built_witness :
    (0 : Int) ≤ 2 ∧ (0 : Int) ≤ 3 ∧ (0 : Int) ≤ 5 ∧ (0 : Int) ≤ 7 ∧
    (Embedding.call ⟨1, 1, [[(1 : ℚ)]]⟩ [0] [0] = Embedding.call ⟨1, 1, [[(1 : ℚ)]]⟩ [1] [0] ∧
    demoEmbed [[(1 : ℚ)]] 2 3 (fun _ => 0) [0] =
      demoEmbed [[(1 : ℚ)]] 5 7 (fun _ => 1) [0]) :=
  ⟨by decide, by decide, by decide, by decide,
    call_ignores_argument_demo_ignores_instance_when_built
      ⟨1, 1, [[(1 : ℚ)]]⟩ [0] [1] [0] [[(1 : ℚ)]] 2 3 5 7 (fun _ => 0) (fun _ => 1) [0]
      (by decide) (by decide) (by decide) (by decide)⟩

/-- C10: for every input string the tokenizer removes exactly the characters
`,`, `?`, `.` — the flattened output tokens are precisely the lowercased
input characters minus those three and minus the space separators — and the
number of tokens is one more than the number of spaces left after filtering;
moreover, whenever the preprocessed input decomposes as a space-free prefix,
a run of k ≥ 1 spaces and a suffix, that run contributes exactly k−1 empty
tokens. -/
theorem tokenizer_punct_space_semantics (text : String) :
    ((tokenize text).map String.toList).flatten =
      (preprocess text).filter (fun c => c != ' ') ∧
    (tokenize text).length = (preprocess text).count ' ' + 1 ∧
    (∀ (a b : List Char) (k : Nat), (∀ c ∈ a, c ≠ ' ') → 1 ≤ k →
      preprocess text = a ++ List.replicate k ' ' ++ b →
      tokenize text =
        a.asString :: (List.replicate (k - 1) "" ++ (splitOnSpace b).map List.asString)) := by
  refine ⟨?_, ?_, ?_⟩
  · rw [tokenize, List.map_map]
    have hid : (String.toList ∘ List.asString) = (id : List Char → List Char) := rfl
    rw [hid, List.map_id, flatten_splitOnSpace]
  · rw [tokenize, List.length_map, length_splitOnSpace]
  · intro a b k ha hk hdecomp
    rw [tokenize, hdecomp, splitOnSpace_run a b k ha hk]
    simp [List.map_replicate, show ([] : List Char).asString = "" from rfl]

/-- Witness for C10's space-run conjunct: the input consisting of the letter
a, three spaces and the letter b, whose preprocessed form splits as a prefix,
the space run and a suffix, producing the two empty middle tokens. -/
theorem tokenizer_punct_space_semantics_witness :
    tokenize "a   b" =
      (['a'].asString) :: (List.replicate (3 - 1) "" ++ (splitOnSpace ['b']).map List.asString) :=
  (tokenizer_punct_space_semantics "a   b").2.2 ['a'] ['b'] 3
    (by decide) (by decide) (by decide)

end HowToEmbed
